import Mathlib

/-!
Verification development for the tiktok-robot media pipeline (src/main.py).

The Python source is shallowly embedded: pure helpers (`ts`,
`words_to_chunks`, `pick_title_hook`, the drawtext escaping) become Lean
functions on `String`/`ℚ`/`ℤ`, and the `/process` handler becomes a pure
function from a request, a configuration and an oracle for the external
effects (HTTP download, ffmpeg invocations, whisper, webhook posts) to a
response together with a trace of side-effect events.  Python floats are
modelled as rationals; Python `round` is round-half-to-even, `int()` on a
float truncates toward zero, `//`/`%` are floor division and modulo.
String helpers treat ASCII whitespace (the only whitespace exercised
anywhere in this development).
-/

/-- ASCII whitespace, as recognised by Python `str.strip`/`str.split` and
by the regex class `\s` (unicode whitespace beyond ASCII is not
modelled). -/
def isPySpace (c : Char) : Bool :=
  c == ' ' || c == '\t' || c == '\n' || c == '\r' || c == '\x0b' || c == '\x0c'

/-- Python `str.strip()` on the character list. -/
def stripChars (l : List Char) : List Char :=
  ((l.dropWhile isPySpace).reverse.dropWhile isPySpace).reverse

/-- Python `s.strip()`. -/
def pyStrip (s : String) : String := ⟨stripChars s.data⟩

/-- Python `" ".join(l)`. -/
def joinSp : List String → String
  | [] => ""
  | [s] => s
  | s :: rest => s ++ " " ++ joinSp rest

/-- Python `s.split()` (split on whitespace runs, dropping empty pieces). -/
def pySplitWs (s : String) : List String :=
  ((s.data.splitOnP isPySpace).filter (fun l => !l.isEmpty)).map (⟨·⟩)

/-- Python `s[:n]`. -/
def pyTake (n : Nat) (s : String) : String := ⟨s.data.take n⟩

/-- Python `s.lower()` (ASCII case folding). -/
def lowerStr (s : String) : String := ⟨s.data.map Char.toLower⟩

/-- Python `round` on a rational: round half to even. -/
def pyRound (q : ℚ) : ℤ :=
  if q - ⌊q⌋ < 1/2 then ⌊q⌋
  else if (1 : ℚ)/2 < q - ⌊q⌋ then ⌊q⌋ + 1
  else if Int.fmod ⌊q⌋ 2 = 0 then ⌊q⌋ else ⌊q⌋ + 1

/-- Python `int()` on a float: truncation toward zero. -/
def pyTruncInt (q : ℚ) : ℤ := if 0 ≤ q then ⌊q⌋ else -⌊-q⌋

/-- Python `f"{n:02d}"` for the integer field widths used by `ts`. -/
def intPad2 (n : ℤ) : String :=
  if 0 ≤ n ∧ n < 10 then "0" ++ toString n else toString n

/-- The timestamp formatter `ts` from `make_ass_from_chunks`
(src/main.py lines 93-99): clamp negatives to zero, take centiseconds by
rounding the fractional part times 100, and format `H:MM:SS.CC` with the
integer part split by floor division. -/
def ts (t0 : ℚ) : String :=
  toString (Int.fdiv ⌊max 0 t0⌋ 3600) ++ ":" ++
  intPad2 (Int.fmod (Int.fdiv ⌊max 0 t0⌋ 60) 60) ++ ":" ++
  intPad2 (Int.fmod ⌊max 0 t0⌋ 60) ++ "." ++
  intPad2 (pyRound ((max 0 t0 - ⌊max 0 t0⌋) * 100))

/-- A word timing as consumed by `words_to_chunks`. -/
structure Word where
  word : String
  start : ℚ
  «end» : ℚ

/-- A caption chunk as produced by `words_to_chunks`. -/
structure Chunk where
  text : String
  start : ℚ
  «end» : ℚ

/-- The chunk a group of words yields: per-word stripped texts joined by
single spaces and stripped again; start of the first and end of the last
word of the group. -/
def chunkOfGroup (g : List Word) : Chunk :=
  { text := pyStrip (joinSp (g.map (fun w => pyStrip w.word)))
    start := ((g.head?).map Word.start).getD 0
    «end» := ((g.getLast?).map Word.«end»).getD 0 }

/-- Fuel-driven worker for `words_to_chunks`; fuel at least the list
length makes the exhaustion branch unreachable. -/
def wordsToChunksF : Nat → Nat → List Word → List Chunk
  | _, _, [] => []
  | _, 0, _ => []
  | 0, _, _ => []
  | fuel+1, k+1, w :: rest =>
    let group := w :: rest.take k
    let c := chunkOfGroup group
    (if c.text = "" then [] else [c]) ++ wordsToChunksF fuel (k+1) (rest.drop k)

/-- The function `words_to_chunks` (src/main.py lines 67-78): walk the word list in
strides of `max_words`, emitting a chunk for every group whose joined,
stripped text is non-empty.  (`max_words = 0` makes the first slice empty
and the Python loop break immediately.) -/
def words_to_chunks (words : List Word) (max_words : Nat := 3) : List Chunk :=
  wordsToChunksF words.length max_words words

/-- The contiguous groups of up to `k` words that `words_to_chunks`
walks, with the same fuel discipline. -/
def groupsOfF : Nat → Nat → List Word → List (List Word)
  | _, _, [] => []
  | _, 0, _ => []
  | 0, _, _ => []
  | fuel+1, k+1, w :: rest =>
    (w :: rest.take k) :: groupsOfF fuel (k+1) (rest.drop k)

/-- Partition of a word list into contiguous groups of up to `k`. -/
def groupsOf (k : Nat) (words : List Word) : List (List Word) :=
  groupsOfF words.length k words

/-- The fixed trigger-word set of `pick_title_hook`
(src/main.py line 62). -/
def triggerWords : List String :=
  ["how", "what", "why", "stop", "secret", "best", "avoid", "never"]

/-- A regex word character (`\w`), ASCII approximation. -/
def isWordChar (c : Char) : Bool := c.isAlphanum || c == '_'

/-- A regex `\b` boundary holds on the given side when the adjacent character is absent or
not a word character. -/
def boundaryOk : Option Char → Bool
  | none => true
  | some c => !isWordChar c

/-- Does a trigger word match at the head of `l`, with word boundaries on
both sides?  `prev` is the character just before the current position. -/
def triggerHere (prev : Option Char) (l : List Char) : Bool :=
  triggerWords.any fun w =>
    boundaryOk prev && w.data.isPrefixOf l &&
      boundaryOk ((l.drop w.data.length).head?)

/-- Scan every position of `l` for a trigger-word match. -/
def hasTriggerAux : Option Char → List Char → Bool
  | prev, [] => triggerHere prev []
  | prev, c :: rest => triggerHere prev (c :: rest) || hasTriggerAux (some c) rest

/-- The test `re.search(r'\b(how|what|why|stop|secret|best|avoid|never)\b', s, re.I)`
as a Boolean. -/
def hasTrigger (s : String) : Bool :=
  hasTriggerAux none (s.data.map Char.toLower)

/-- Fuel-driven scanner realising
`re.split(r'(?<=[.!?])\s+', s)`: split at every maximal whitespace run
whose preceding character is `.`, `!` or `?`. -/
def splitSentAux : Nat → List Char → List Char → List String
  | _, acc, [] => [⟨acc.reverse⟩]
  | 0, acc, rest => [⟨acc.reverse ++ rest⟩]
  | fuel+1, acc, c :: rest =>
    if (c == '.' || c == '!' || c == '?') &&
        (match rest.head? with | some d => isPySpace d | none => false) then
      ⟨(c :: acc).reverse⟩ :: splitSentAux fuel [] (rest.dropWhile isPySpace)
    else
      splitSentAux fuel (c :: acc) rest

/-- Python `re.split(r'(?<=[.!?])\s+', s)`. -/
def splitSentences (s : String) : List String :=
  splitSentAux s.data.length [] s.data

/-- The function `pick_title_hook` (src/main.py lines 58-65): empty text falls back to
"Watch this"; otherwise split the stripped text into sentence candidates,
prefer the first one containing a trigger word, else the first candidate,
and truncate the chosen line to its first 8 whitespace-delimited words if
longer. -/
def pick_title_hook (text : String) : String :=
  if text = "" then "Watch this"
  else
    let candidates := splitSentences (pyStrip text)
    let strong := candidates.filter hasTrigger
    let line := ((strong.head?).getD (((candidates.head?).getD "Watch this")))
    let ws := pySplitWs line
    if ws.length > 8 then joinSp (ws.take 8) else line

/-- The single-quote character. -/
def sqChar : Char := Char.ofNat 39

/-- The double-quote character. -/
def dqChar : Char := Char.ofNat 34

/-- Python `s.replace(c, r)` for a single-character needle. -/
def replaceChar (c : Char) (r : List Char) (s : String) : String :=
  ⟨s.data.flatMap (fun x => if x = c then r else [x])⟩

/-- The `safe_title` escaping (src/main.py lines 188-193): backslash-escape
colon, then single quote, then double quote. -/
def escapeDrawtext (s : String) : String :=
  replaceChar dqChar ['\\', dqChar]
    (replaceChar sqChar ['\\', sqChar]
      (replaceChar ':' ['\\', ':'] s))

/-- The drawtext overlay built at src/main.py lines 194-203.  The fixed
styling (white 64px text with black border, centered at y = 0.2 h) is
constant and omitted; the escaped text and the
`enable='between(t,start,end)'` window are retained. -/
structure Draw where
  text : String
  enableStart : ℚ
  enableEnd : ℚ
  deriving DecidableEq

/-- Compose the drawtext overlay for a title hook and hook window. -/
def drawOf (titleHook : String) (hookStart hookDur : ℚ) : Draw :=
  { text := escapeDrawtext titleHook
    enableStart := hookStart
    enableEnd := hookStart + hookDur }

/-- One step of the `-vf` filter chain built at src/main.py
lines 206-216. -/
inductive VFilter where
  | scale (w h : Nat)
  | crop (w h : Nat)
  | subtitles (path : String)
  | drawtext (d : Draw)
  deriving DecidableEq

/-- The `-vf` chain: scale to fill 1080x1920, center-crop, optionally burn
the subtitle file, then the drawtext overlay. -/
def vfOf (assPath : Option String) (d : Draw) : List VFilter :=
  match assPath with
  | some p => [.scale 1080 1920, .crop 1080 1920, .subtitles p, .drawtext d]
  | none => [.scale 1080 1920, .crop 1080 1920, .drawtext d]

/-- A character with special meaning inside a drawtext text value. -/
def specialChar (c : Char) : Bool := c == ':' || c == sqChar || c == dqChar

/-- Modelled from the spec: the external media tool's parser for a
drawtext text literal, the tool itself being outside this repository.
Per §4.5/§6 of the spec, colon, double quote and single quote are the
characters with special meaning in the filter syntax and must be escaped;
a backslash makes the following character literal.  The parser returns
the rendered characters, or `none` on a syntax error (an unescaped
special character or a dangling backslash). -/
def parseFilterText : List Char → Option (List Char)
  | [] => some []
  | c :: rest =>
    if c = '\\' then
      match rest with
      | [] => none
      | d :: rest2 => (parseFilterText rest2).map (d :: ·)
    else if specialChar c then none
    else (parseFilterText rest).map (c :: ·)

/-- One escaped character of `escapeDrawtext`'s output. -/
def escStep (c : Char) : List Char :=
  if specialChar c then ['\\', c] else [c]

/-- A parsed request-body value (JSON or form field). -/
inductive JVal where
  | str (s : String)
  | bool (b : Bool)
  | num (q : ℚ)
  | obj (fields : List (String × JVal))

/-- A parsed request body: a Python dict of fields. -/
abbrev Body := List (String × JVal)

/-- Python `dict.get` / `dict[...]` on a body (first binding wins). -/
def jlookup : Body → String → Option JVal
  | [], _ => none
  | (k, v) :: rest, key => if k = key then some v else jlookup rest key

/-- Python `str()` of a body value, to the extent the handler observes it:
only the comparison `str(...).lower() == "true"` matters, so renderings of
numbers and dicts are abbreviated (no Python rendering of a number or a
dict ever equals `"true"`). -/
def pyStr : JVal → String
  | .str s => s
  | .bool b => if b then "True" else "False"
  | .num _ => "[number]"
  | .obj _ => "[dict]"

/-- Python truthiness of a body value. -/
def truthy : JVal → Bool
  | .str s => !(s = "" : Bool)
  | .bool b => b
  | .num q => !(q = 0 : Bool)
  | .obj l => !l.isEmpty

/-- The chars after the first literal space: `s.split(" ", 1)[1]`. -/
def afterFirstSpace : List Char → List Char
  | [] => []
  | c :: rest => if c = ' ' then rest else afterFirstSpace rest

/-- Extract the bearer credential from an `Authorization` header value
(src/main.py lines 126-128): if the lowercased header starts with
`"bearer "`, the part after the first space, stripped. -/
def bearerToken (hdr : String) : Option String :=
  if "bearer ".data.isPrefixOf (hdr.data.map Char.toLower) then
    some (pyStrip ⟨afterFirstSpace hdr.data⟩)
  else none

/-- The credential the handler compares against the secret
(src/main.py lines 124-128): the body's `auth` field if truthy, else the
bearer header token if present, else whatever falsy value (or absence)
the body supplied. -/
def authTokenOf (body : Body) (hdr : Option String) : Option JVal :=
  let t := jlookup body "auth"
  if (match t with | some v => truthy v | none => false) then t
  else
    match hdr with
    | some h =>
      match bearerToken h with
      | some s => some (.str s)
      | none => t
    | none => t

/-- Python `auth_token == APP_AUTH`: only equal strings compare equal. -/
def tokenMatches : Option JVal → String → Bool
  | some (.str s), secret => decide (s = secret)
  | _, _ => false

/-- The recognized settings, parsed with their defaults
(src/main.py lines 146-150). -/
structure Settings where
  pauseTrimMs : ℤ
  lufs : ℚ
  peak : ℚ
  hookStart : ℚ
  hookDur : ℚ

/-- Python `float()` on a body value; `none` models a raised conversion
error.  (Numeric strings are not modelled; no claim exercises them.) -/
def floatOfJVal : JVal → Option ℚ
  | .num q => some q
  | .bool b => some (if b then 1 else 0)
  | .str _ => none
  | .obj _ => none

/-- View a body value as a dict, failing otherwise. -/
def asObj : JVal → Option Body
  | .obj l => some l
  | _ => none

/-- Python `float(o.get(key, dflt))`. -/
def floatField (o : Body) (key : String) (dflt : ℚ) : Option ℚ :=
  match jlookup o key with
  | none => some dflt
  | some v => floatOfJVal v

/-- Python `o.get(key, {})`, which must then be a dict for the following `.get`. -/
def objField (o : Body) (key : String) : Option Body :=
  match jlookup o key with
  | none => some []
  | some v => asObj v

/-- Parse the settings from the body (src/main.py lines 139, 145-150):
`settings` defaults to `{}`, every field falls back to its default, and a
non-numeric value raises (modelled as `none`). -/
def parseSettings (body : Body) : Option Settings := do
  let st ← asObj ((jlookup body "settings").getD (.obj []))
  let pt ← (match jlookup st "pause_trim_ms" with
            | none => some (350 : ℚ)
            | some v => floatOfJVal v)
  let audio ← objField st "audio"
  let lufs ← floatField audio "lufs" (-14)
  let peak ← floatField audio "peak_db" (-1)
  let exportObj ← objField st "export"
  let hookStart ← floatField exportObj "hook_start_min_sec" (3/10)
  let hookDur ← floatField exportObj "hook_duration_sec" (5/2)
  some ⟨pyTruncInt pt, lufs, peak, hookStart, hookDur⟩

/-- Python `str(body.get("has_captions", True)).lower() == "true"`
(src/main.py lines 138, 144). -/
def hasCaptionsOf (body : Body) : Bool :=
  decide (lowerStr (pyStr ((jlookup body "has_captions").getD (.bool true))) = "true")

/-- One word entry of a whisper segment; any of the three keys may be
missing. -/
structure RawWord where
  rstart : Option ℚ
  rend : Option ℚ
  rword : Option String

/-- One whisper segment. -/
structure Segment where
  segWords : List RawWord

/-- The transcription engine's output: full text plus segments with
word-level timings. -/
structure TranscribeResult where
  text : String
  segments : List Segment

/-- Collect the word timings (src/main.py lines 177-181): keep exactly the
entries carrying all of `start`, `end` and `word`. -/
def collectWords (tr : TranscribeResult) : List Word :=
  tr.segments.flatMap fun seg =>
    seg.segWords.filterMap fun w =>
      match w.rstart, w.rend, w.rword with
      | some s, some e, some t => some ⟨t, s, e⟩
      | _, _, _ => none

/-- Environment configuration (src/main.py lines 7-11). -/
structure Config where
  appAuth : String
  zapierUrl : String
  base44Url : String

/-- Oracle for the external effects of one job.  Each field is the
outcome of the corresponding external call; a `.error` carries the
exception text `str(e)`.  The two webhook-post outcomes are recorded but
deliberately never consulted by the model: the handler swallows their
exceptions (src/main.py lines 248-254, 263-281). -/
structure Externals where
  download : Except String Unit
  extractAudio : Except String Unit
  transcribe : Except String TranscribeResult
  tighten : Except String Unit
  burn : Except String Unit
  normalize : Except String Unit
  postReady : Except String Unit
  postFailed : Except String Unit

/-- A side effect of the handler, in order of occurrence.  File-writing
events create fixed paths inside the scratch directory (modelled as the
abstract path `WORK`). -/
inductive Event where
  | mkWorkspace
  | download (url : JVal)
  | extractAudio
  | transcribeCall
  | tighten (pauseTrimMs : ℤ)
  | writeAss (chunks : List Chunk)
  | burn (vf : List VFilter)
  | normalize (af : String)
  | postReady (url : String) (videoId : JVal) (titleHook : String)
  | postFailedJson (url : String) (videoId : JVal) (errMsg : String)
  | rmWorkspace

/-- The audio filter passed to the loudness-normalization invocation
(src/main.py line 230), a fixed literal. -/
def loudnormAf : String := "loudnorm=I=-14:TP=-1.5:LRA=11"

/-- The stage chain inside the `try` block (src/main.py lines 153-256):
download, audio extraction, transcription, hook selection, silence
tightening, optional caption synthesis, burn, loudness normalization and
the success webhook post.  Returns the first failure (with its message)
or success, together with the external-effect trace. -/
def pipeline (cfg : Config) (ext : Externals) (videoId rawUrl : JVal)
    (hasCaptions : Bool) (st : Settings) : Except String Unit × List Event :=
  match ext.download with
  | .error e => (.error e, [.download rawUrl])
  | .ok _ =>
  match ext.extractAudio with
  | .error e => (.error e, [.download rawUrl, .extractAudio])
  | .ok _ =>
  match ext.transcribe with
  | .error e => (.error e, [.download rawUrl, .extractAudio, .transcribeCall])
  | .ok tr =>
  let titleHook := pick_title_hook (pyStrip tr.text)
  match ext.tighten with
  | .error e =>
    (.error e, [.download rawUrl, .extractAudio, .transcribeCall, .tighten st.pauseTrimMs])
  | .ok _ =>
  let words := collectWords tr
  let assPath : Option String :=
    if hasCaptions && !words.isEmpty then some "WORK/captions.ass" else none
  let assEvents : List Event :=
    if hasCaptions && !words.isEmpty then [.writeAss (words_to_chunks words)] else []
  let vf := vfOf assPath (drawOf titleHook st.hookStart st.hookDur)
  let evs0 : List Event :=
    [.download rawUrl, .extractAudio, .transcribeCall, .tighten st.pauseTrimMs] ++
      assEvents ++ [.burn vf]
  match ext.burn with
  | .error e => (.error e, evs0)
  | .ok _ =>
  match ext.normalize with
  | .error e => (.error e, evs0 ++ [.normalize loudnormAf])
  | .ok _ =>
  (.ok (),
    evs0 ++ [.normalize loudnormAf] ++
      (if cfg.zapierUrl = "" then []
       else [.postReady cfg.zapierUrl videoId titleHook]))

/-- The failure notification (src/main.py lines 262-281): post a FAILED
record with the error message truncated to 800 characters to the Zapier
hook if configured, else to the legacy Base44 callback if configured,
else nowhere.  Post failures are swallowed. -/
def failNotify (cfg : Config) (videoId : JVal) (e : String) : List Event :=
  if cfg.zapierUrl = "" then
    (if cfg.base44Url = "" then []
     else [.postFailedJson cfg.base44Url videoId (pyTake 800 e)])
  else [.postFailedJson cfg.zapierUrl videoId (pyTake 800 e)]

/-- The HTTP-level outcome of one request. -/
inductive Resp where
  | noContent
  | badPayload
  | unauthorized
  | crash (msg : String)
  | okTrue
  | httpError (code : Nat) (detail : String)
  deriving DecidableEq

/-- One inbound request: method, the two body-parse attempts (JSON first,
then form data; `none` models a parse failure), and the optional
`Authorization` header. -/
structure Req where
  method : String
  jsonBody : Option Body
  formBody : Option Body
  authHeader : Option String

/-- Body parsing (src/main.py lines 113-121): JSON, else form data, else
a 400. -/
def parseBody (req : Req) : Option Body := req.jsonBody <|> req.formBody

/-- src/main.py lines 134-135: copy `video_url` to `raw_url` when only the
former is present. -/
def normalizeVideoUrl (body : Body) : Body :=
  match jlookup body "video_url", jlookup body "raw_url" with
  | some v, none => ("raw_url", v) :: body
  | _, _ => body

/-- The `/process` handler (src/main.py lines 107-286) as a pure function
of the configuration, the external-effect oracle and the request:
preflight short-circuit, body parsing, credential check, `raw_url`
normalization, required-field lookup (a missing field raises out of the
handler: `crash`), settings parsing, then the workspace-scoped pipeline
with failure notification and unconditional workspace removal. -/
def process (cfg : Config) (ext : Externals) (req : Req) : Resp × List Event :=
  if req.method = "OPTIONS" then (.noContent, [])
  else
    match parseBody req with
    | none => (.badPayload, [])
    | some body0 =>
      if tokenMatches (authTokenOf body0 req.authHeader) cfg.appAuth then
        let body := normalizeVideoUrl body0
        match jlookup body "video_id" with
        | none => (.crash "KeyError: video_id", [])
        | some videoId =>
          match jlookup body "raw_url" with
          | none => (.crash "KeyError: raw_url", [])
          | some rawUrl =>
            match parseSettings body with
            | none => (.crash "invalid settings value", [])
            | some st =>
              let pr := pipeline cfg ext videoId rawUrl (hasCaptionsOf body) st
              match pr.1 with
              | .ok _ => (.okTrue, .mkWorkspace :: pr.2 ++ [.rmWorkspace])
              | .error e =>
                (.httpError 500 e,
                  .mkWorkspace :: (pr.2 ++ failNotify cfg videoId e) ++ [.rmWorkspace])
      else (.unauthorized, [])

/-- The files an event creates, all inside the scratch directory. -/
def pathsCreated : Event → List String
  | .mkWorkspace => []
  | .download _ => ["WORK/input.mp4"]
  | .extractAudio => ["WORK/audio.wav"]
  | .transcribeCall => []
  | .tighten _ => ["WORK/tight.mp4"]
  | .writeAss _ => ["WORK/captions.ass"]
  | .burn _ => ["WORK/staged.mp4"]
  | .normalize _ => ["WORK/final.mp4"]
  | .postReady _ _ _ => []
  | .postFailedJson _ _ _ => []
  | .rmWorkspace => []

/-- Is a path inside the job's scratch directory? -/
def underWork (p : String) : Bool := "WORK".data.isPrefixOf p.data

/-- Filesystem transition of one event: file-writing events add their
paths; `shutil.rmtree(work, ignore_errors=True)` removes everything under
the scratch directory. -/
def fsStep (fs : List String) (ev : Event) : List String :=
  match ev with
  | .rmWorkspace => fs.filter (fun p => !underWork p)
  | _ => pathsCreated ev ++ fs

/-- The files existing after a trace of events, starting from nothing. -/
def fsAfter (evs : List Event) : List String := evs.foldl fsStep []

/-- All six pipeline stages succeed (the transcription with some
result). -/
def stagesOk (ext : Externals) : Prop :=
  ext.download = .ok () ∧ ext.extractAudio = .ok () ∧
    (∃ tr, ext.transcribe = .ok tr) ∧ ext.tighten = .ok () ∧
    ext.burn = .ok () ∧ ext.normalize = .ok ()

/-- A string with no leading and no trailing Python whitespace. -/
def noEdge (s : String) : Prop :=
  (∀ c, s.data.head? = some c → isPySpace c = false) ∧
    (∀ c, s.data.getLast? = some c → isPySpace c = false)

/-- Concrete configuration used by the closed evaluations below. -/
def cfgT : Config :=
  { appAuth := "changeme", zapierUrl := "http://zap.example", base44Url := "" }

/-- A transcription result with empty text and no segments. -/
def trEmpty : TranscribeResult := { text := "", segments := [] }

/-- External-call oracle in which every stage succeeds. -/
def extOK : Externals :=
  { download := .ok (), extractAudio := .ok (), transcribe := .ok trEmpty
    tighten := .ok (), burn := .ok (), normalize := .ok ()
    postReady := .ok (), postFailed := .ok () }

/-- A 900-character error message (exceeding the 800-character
truncation bound). -/
def longMsg : String := ⟨List.replicate 900 'x'⟩

/-- Oracle in which the download stage fails with `longMsg`. -/
def extFail : Externals := { extOK with download := .error longMsg }

/-- A request body with valid credential and settings asking for
loudness targets −16 LUFS / −2 dBTP. -/
def bodyT : Body :=
  [("auth", .str "changeme"), ("video_id", .str "vid-1"),
   ("raw_url", .str "http://example/raw.mp4"),
   ("settings", .obj [("audio", .obj [("lufs", .num (-16)), ("peak_db", .num (-2))])])]

/-- The settings `bodyT` parses to. -/
def stT : Settings := ⟨pyTruncInt 350, -16, -2, 3/10, 5/2⟩

/-- A well-formed POST request carrying `bodyT`. -/
def reqT : Req :=
  { method := "POST", jsonBody := some bodyT, formBody := none, authHeader := none }

/-- A request whose body parses neither as JSON nor as form data, with a
mismatched bearer credential in the header. -/
def reqBadBody : Req :=
  { method := "POST", jsonBody := none, formBody := none, authHeader := some "Bearer nope" }

/-- A parseable request with a mismatched body credential. -/
def reqWrongAuth : Req :=
  { method := "POST", jsonBody := some [("auth", .str "wrong")], formBody := none,
    authHeader := none }

/-- The body `bodyT` with captions disabled. -/
def bodyNC : Body := ("has_captions", .bool false) :: bodyT

/-- A POST request carrying `bodyNC`. -/
def reqNC : Req :=
  { method := "POST", jsonBody := some bodyNC, formBody := none, authHeader := none }

/-- A hook text containing a colon, a single quote and a double quote. -/
def hookSample : String := ⟨['a', ':', 'b', sqChar, 'c', dqChar]⟩

/-- Word timings containing a whitespace-only word. -/
def ws3 : List Word := [⟨"a", 0, 1⟩, ⟨" ", 1, 2⟩, ⟨"b", 2, 3⟩]

/-- Word timings whose stripped texts are all non-empty. -/
def wsW : List Word :=
  [⟨"alpha", 0, 1⟩, ⟨"beta", 1, 2⟩, ⟨"gamma", 2, 3⟩, ⟨"delta", 3, 4⟩]

/-- A twelve-word transcript with no sentence punctuation. -/
def twelveWords : String :=
  "alpha beta gamma delta epsilon zeta eta theta iota kappa lambda mu"

theorem strExt : ∀ {s t : String}, s.data = t.data → s = t := by
  intro ⟨l⟩ ⟨m⟩ h
  cases h
  rfl

theorem data_append (s t : String) : (s ++ t).data = s.data ++ t.data := rfl

theorem str_append_assoc (a b c : String) : a ++ b ++ c = a ++ (b ++ c) :=
  strExt (by simp [data_append, List.append_assoc])

theorem stripChars_nil_of_space {l : List Char} (h : ∀ c ∈ l, isPySpace c = true) :
    stripChars l = [] := by
  have h1 : l.dropWhile isPySpace = [] := List.dropWhile_eq_nil_iff.mpr (by simpa using h)
  unfold stripChars
  rw [h1]
  rfl

/-- Claim C2 (code evaluation at the failing input): `ts` applied to
59.996 seconds yields `"0:00:59.100"` — a three-digit centisecond field
with no carry into the seconds — rather than rolling over to
`"0:01:00.00"` as the claim requires. -/
theorem c2_ts_no_carry :
    ts (59996/1000 : ℚ) = "0:00:59.100" ∧
      ("0:00:59.100" : String) ≠ "0:01:00.00" := by
  constructor
  · have hmax : max (0 : ℚ) (59996/1000) = 59996/1000 := max_eq_right (by norm_num)
    have hfl : (⌊(59996/1000 : ℚ)⌋ : ℤ) = 59 := by
      rw [Int.floor_eq_iff]
      constructor <;> norm_num
    have hfrac : ((59996/1000 : ℚ) - ((59 : ℤ) : ℚ)) * 100 = 996/10 := by
      push_cast
      norm_num
    have h99 : (⌊(996/10 : ℚ)⌋ : ℤ) = 99 := by
      rw [Int.floor_eq_iff]
      constructor <;> norm_num
    have hround : pyRound (996/10) = 100 := by
      unfold pyRound
      rw [h99]
      have h1 : ¬((996/10 : ℚ) - ((99 : ℤ) : ℚ) < 1/2) := by push_cast; norm_num
      have h2 : (1 : ℚ)/2 < (996/10 : ℚ) - ((99 : ℤ) : ℚ) := by push_cast; norm_num
      rw [if_neg h1, if_pos h2]
      norm_num
    unfold ts
    rw [hmax, hfl, hfrac, hround]
    decide
  · decide

/-- Claim C6: the hook selector returns the first trigger-matching
sentence for the two-sentence question input, the fixed default for the
empty transcript, and exactly the first 8 words of a punctuation-free
12-word transcript. -/
theorem c6_hook_selection :
    pick_title_hook "How do you fix this? It was a long day." = "How do you fix this?" ∧
      pick_title_hook "" = "Watch this" ∧
      pick_title_hook twelveWords = "alpha beta gamma delta epsilon zeta eta theta" := by
  refine ⟨by decide, by decide, by decide⟩

/-- Claim C10 (counterexample): a non-empty transcript can also yield the
fixed default string — the transcript `"Watch this"` is selected as its
own first candidate — so the selector does not return the default only
for the empty transcript. -/
theorem c10_default_not_only_empty :
    pick_title_hook "Watch this" = "Watch this" ∧ ("Watch this" : String) ≠ "" := by
  refine ⟨by decide, by decide⟩

/-- Claim C10 (amended): a non-empty transcript consisting solely of
whitespace yields the empty string (the sole, empty candidate), not the
fixed default; the default-fallback branch itself fires only for the
empty transcript, though a transcript whose own first candidate equals
the default string still returns that string. -/
theorem c10_whitespace_yields_empty (t : String) (hne : t ≠ "")
    (hsp : ∀ c ∈ t.data, isPySpace c = true) :
    pick_title_hook t = "" ∧ pick_title_hook t ≠ "Watch this" := by
  have hstrip : pyStrip t = "" := strExt (stripChars_nil_of_space hsp)
  have hmain : pick_title_hook t = "" := by
    unfold pick_title_hook
    rw [if_neg hne, hstrip]
    decide
  exact ⟨hmain, by rw [hmain]; decide⟩

/-- Witness for `c10_whitespace_yields_empty` at the one-space
transcript. -/
theorem c10_whitespace_yields_empty_witness :
    (" " : String) ≠ "" ∧ (∀ c ∈ (" " : String).data, isPySpace c = true) ∧
      pick_title_hook " " = "" :=
  ⟨by decide, by decide, (c10_whitespace_yields_empty " " (by decide) (by decide)).1⟩

theorem joinSp_append (a b : List String) (ha : a ≠ []) (hb : b ≠ []) :
    joinSp (a ++ b) = joinSp a ++ " " ++ joinSp b := by
  induction a with
  | nil => exact absurd rfl ha
  | cons x xs ih =>
    cases xs with
    | nil =>
      cases b with
      | nil => exact absurd rfl hb
      | cons y ys => rfl
    | cons z zs =>
      have h1 : joinSp ((x :: z :: zs) ++ b) = x ++ " " ++ joinSp ((z :: zs) ++ b) := rfl
      have h2 : joinSp (x :: z :: zs) = x ++ " " ++ joinSp (z :: zs) := rfl
      rw [h1, ih (by simp), h2]
      simp [str_append_assoc]

theorem head?_dropWhile_false (l : List Char) :
    ∀ c, (l.dropWhile isPySpace).head? = some c → isPySpace c = false := by
  induction l with
  | nil => intro c h; simp at h
  | cons a r ih =>
    intro c h
    rw [List.dropWhile_cons] at h
    by_cases ha : isPySpace a = true
    · rw [if_pos ha] at h
      exact ih c h
    · rw [if_neg ha] at h
      simp only [List.head?_cons, Option.some.injEq] at h
      subst h
      simpa using ha

theorem pyStrip_noEdge (s : String) : noEdge (pyStrip s) := by
  constructor
  · intro c hc
    have hX : (pyStrip s).data =
        ((s.data.dropWhile isPySpace).reverse.dropWhile isPySpace).reverse := rfl
    rw [hX, List.head?_reverse] at hc
    have hXne : (s.data.dropWhile isPySpace).reverse.dropWhile isPySpace ≠ [] := by
      intro h0
      rw [h0] at hc
      simp at hc
    have h1 := List.takeWhile_append_dropWhile (p := isPySpace)
      (l := (s.data.dropWhile isPySpace).reverse)
    have h2 : ((s.data.dropWhile isPySpace).reverse).getLast? =
        ((s.data.dropWhile isPySpace).reverse.dropWhile isPySpace).getLast? := by
      conv_lhs => rw [← h1]
      exact List.getLast?_append_of_ne_nil _ hXne
    have h3 : ((s.data.dropWhile isPySpace).reverse).getLast? =
        (s.data.dropWhile isPySpace).head? := List.getLast?_reverse _
    exact head?_dropWhile_false s.data c (h3.symm.trans (h2.trans hc))
  · intro c hc
    have hX : (pyStrip s).data =
        ((s.data.dropWhile isPySpace).reverse.dropWhile isPySpace).reverse := rfl
    rw [hX, List.getLast?_reverse] at hc
    exact head?_dropWhile_false (s.data.dropWhile isPySpace).reverse c hc

theorem noEdge_strip_id (s : String) (h : noEdge s) : pyStrip s = s := by
  apply strExt
  show stripChars s.data = s.data
  have h1 : s.data.dropWhile isPySpace = s.data := by
    cases hl : s.data with
    | nil => rfl
    | cons a r =>
      rw [List.dropWhile_cons, if_neg]
      have ha := h.1 a (by rw [hl]; rfl)
      simp [ha]
  unfold stripChars
  rw [h1]
  have h2 : s.data.reverse.dropWhile isPySpace = s.data.reverse := by
    cases hl : s.data.reverse with
    | nil => rfl
    | cons a r =>
      rw [List.dropWhile_cons, if_neg]
      have hlast : s.data.getLast? = some a := by
        rw [← List.head?_reverse, hl]
        rfl
      have ha := h.2 a hlast
      simp [ha]
  rw [h2, List.reverse_reverse]

theorem ne_nil_data {s : String} (h : s ≠ "") : s.data ≠ [] := by
  intro hd
  exact h (strExt (by rw [hd])) 

theorem joinSp_props (l : List String) (hne : l ≠ [])
    (h : ∀ s ∈ l, s ≠ "" ∧ noEdge s) : joinSp l ≠ "" ∧ noEdge (joinSp l) := by
  induction l with
  | nil => exact absurd rfl hne
  | cons x xs ih =>
    cases xs with
    | nil => simpa [joinSp] using h x (by simp)
    | cons y ys =>
      obtain ⟨hx, hxE⟩ := h x (by simp)
      obtain ⟨hJ, hJE⟩ := ih (by simp) (fun s hs => h s (by simp [hs]))
      have hdata : (joinSp (x :: y :: ys)).data =
          x.data ++ ([' '] ++ (joinSp (y :: ys)).data) := by
        show (x ++ " " ++ joinSp (y :: ys)).data = _
        rw [data_append, data_append, List.append_assoc]
      refine ⟨?_, ?_, ?_⟩
      · intro he
        have hd : (joinSp (x :: y :: ys)).data = [] := by rw [he]
        rw [hdata] at hd
        simp at hd
      · intro c hc
        rw [hdata, List.head?_append_of_ne_nil _ (ne_nil_data hx)] at hc
        exact hxE.1 c hc
      · intro c hc
        rw [hdata, ← List.append_assoc,
          List.getLast?_append_of_ne_nil _ (ne_nil_data hJ)] at hc
        exact hJE.2 c hc

theorem chunk_text_clean (g : List Word) (hg : g ≠ [])
    (hw : ∀ w ∈ g, pyStrip w.word ≠ "") :
    (chunkOfGroup g).text = joinSp (g.map (fun w => pyStrip w.word)) ∧
      (chunkOfGroup g).text ≠ "" := by
  have hmap : ∀ s ∈ g.map (fun w => pyStrip w.word), s ≠ "" ∧ noEdge s := by
    intro s hs
    obtain ⟨w, hwm, rfl⟩ := List.mem_map.mp hs
    exact ⟨hw w hwm, pyStrip_noEdge _⟩
  have hmne : g.map (fun w => pyStrip w.word) ≠ [] := by simpa using hg
  obtain ⟨hne, hcl⟩ := joinSp_props _ hmne hmap
  have htext : (chunkOfGroup g).text =
      pyStrip (joinSp (g.map fun w => pyStrip w.word)) := rfl
  rw [htext, noEdge_strip_id _ hcl]
  exact ⟨rfl, hne⟩

theorem groupsOfF_flatten : ∀ (fuel k : Nat) (ws : List Word), ws.length ≤ fuel →
    (groupsOfF fuel (k+1) ws).flatten = ws := by
  intro fuel
  induction fuel with
  | zero =>
    intro k ws h
    cases ws with
    | nil => rfl
    | cons w r => simp at h
  | succ fuel ih =>
    intro k ws h
    cases ws with
    | nil => rfl
    | cons w rest =>
      show ((w :: rest.take k) :: groupsOfF fuel (k+1) (rest.drop k)).flatten = w :: rest
      rw [List.flatten_cons, ih k (rest.drop k) ?_]
      · simp [List.cons_append, List.take_append_drop]
      · rw [List.length_drop]
        simp only [List.length_cons] at h
        omega

theorem groupsOfF_mem : ∀ (fuel k : Nat) (ws : List Word), ws.length ≤ fuel →
    ∀ g ∈ groupsOfF fuel (k+1) ws, g ≠ [] ∧ g.length ≤ k+1 := by
  intro fuel
  induction fuel with
  | zero =>
    intro k ws h g hg
    cases ws with
    | nil => simp [groupsOfF] at hg
    | cons w r => simp at h
  | succ fuel ih =>
    intro k ws h g hg
    cases ws with
    | nil => simp [groupsOfF] at hg
    | cons w rest =>
      have hg2 : g ∈ (w :: rest.take k) :: groupsOfF fuel (k+1) (rest.drop k) := hg
      rcases List.mem_cons.mp hg2 with rfl | hmem
      · refine ⟨by simp, ?_⟩
        have := List.length_take_le k rest
        simp only [List.length_cons]
        omega
      · refine ih k (rest.drop k) ?_ g hmem
        rw [List.length_drop]
        simp only [List.length_cons] at h
        omega

theorem wordsToChunksF_eq : ∀ (fuel k : Nat) (ws : List Word), ws.length ≤ fuel →
    (∀ w ∈ ws, pyStrip w.word ≠ "") →
    wordsToChunksF fuel (k+1) ws = (groupsOfF fuel (k+1) ws).map chunkOfGroup := by
  intro fuel
  induction fuel with
  | zero =>
    intro k ws h _
    cases ws with
    | nil => rfl
    | cons w r => simp at h
  | succ fuel ih =>
    intro k ws h hword
    cases ws with
    | nil => rfl
    | cons w rest =>
      have hgw : ∀ w' ∈ (w :: rest.take k), pyStrip w'.word ≠ "" := by
        intro w' hw'
        rcases List.mem_cons.mp hw' with rfl | hmem
        · exact hword w' (by simp)
        · exact hword w' (List.mem_cons.mpr (Or.inr (List.take_subset _ _ hmem)))
      obtain ⟨-, htne⟩ := chunk_text_clean (w :: rest.take k) (by simp) hgw
      show (if (chunkOfGroup (w :: rest.take k)).text = "" then []
            else [chunkOfGroup (w :: rest.take k)]) ++
          wordsToChunksF fuel (k+1) (rest.drop k) =
          ((w :: rest.take k) :: groupsOfF fuel (k+1) (rest.drop k)).map chunkOfGroup
      rw [if_neg htne, ih k (rest.drop k) ?_ ?_]
      · rfl
      · rw [List.length_drop]
        simp only [List.length_cons] at h
        omega
      · intro w' hw'
        exact hword w' (List.mem_cons.mpr (Or.inr (List.drop_subset _ _ hw')))

theorem joinSp_map_flatten (gs : List (List Word)) (f : Word → String)
    (h : ∀ g ∈ gs, g ≠ []) :
    joinSp (gs.map (fun g => joinSp (g.map f))) = joinSp ((gs.flatten).map f) := by
  induction gs with
  | nil => rfl
  | cons g rest ih =>
    cases rest with
    | nil => simp [List.flatten, joinSp]
    | cons g2 rest2 =>
      have hg : g ≠ [] := h g (by simp)
      have hg2 : g2 ≠ [] := h g2 (by simp)
      have hflatne : ((g2 :: rest2).flatten).map f ≠ [] := by
        cases hg2n : g2 with
        | nil => exact absurd hg2n hg2
        | cons a r => simp [List.flatten_cons, hg2n]
      have hmapne : g.map f ≠ [] := by simpa using hg
      have hlhs : joinSp ((g :: g2 :: rest2).map (fun g => joinSp (g.map f))) =
          joinSp (g.map f) ++ " " ++
            joinSp ((g2 :: rest2).map (fun g => joinSp (g.map f))) := rfl
      have hrhs : joinSp (((g :: g2 :: rest2).flatten).map f) =
          joinSp (g.map f) ++ " " ++ joinSp (((g2 :: rest2).flatten).map f) := by
        rw [List.flatten_cons, List.map_append]
        exact joinSp_append _ _ hmapne hflatne
      rw [hlhs, ih (fun g' hg' => h g' (by simp [hg'])), hrhs]

/-- Claim C3 (counterexample): for group size 1 and a whitespace-only
middle word, the space-joined chunk texts give `"a b"` while the trimmed,
space-joined original word sequence is `"a  b"`, so concatenating the
chunk texts does not reproduce it. -/
theorem c3_concat_counterexample :
    joinSp ((words_to_chunks ws3 1).map Chunk.text) = "a b" ∧
      pyStrip (joinSp (ws3.map (fun w => pyStrip w.word))) = "a  b" ∧
      ("a b" : String) ≠ "a  b" :=
  ⟨by decide, by decide, by decide⟩

/-- Claim C3 (amended): for a positive group size and word timings whose
stripped texts are all non-empty, `words_to_chunks` is exactly the
per-group chunk map over the contiguous partition into groups of up to
`k+1` words (so each chunk takes its group's first start and last end, as
`chunkOfGroup` does); the groups concatenate back to the input; every
group is non-empty, of size at most `k+1`, and is emitted with non-empty
text; and the space-joined chunk texts reproduce the trimmed,
space-joined original words. -/
theorem c3_chunks (k : Nat) (ws : List Word)
    (hw : ∀ w ∈ ws, pyStrip w.word ≠ "") :
    words_to_chunks ws (k+1) = (groupsOf (k+1) ws).map chunkOfGroup ∧
      (groupsOf (k+1) ws).flatten = ws ∧
      (∀ g ∈ groupsOf (k+1) ws, g ≠ [] ∧ g.length ≤ k+1) ∧
      (∀ c ∈ words_to_chunks ws (k+1), c.text ≠ "") ∧
      joinSp ((words_to_chunks ws (k+1)).map Chunk.text) =
        pyStrip (joinSp (ws.map (fun w => pyStrip w.word))) := by
  have hA : words_to_chunks ws (k+1) = (groupsOf (k+1) ws).map chunkOfGroup :=
    wordsToChunksF_eq ws.length k ws le_rfl hw
  have hB : (groupsOf (k+1) ws).flatten = ws := groupsOfF_flatten ws.length k ws le_rfl
  have hC : ∀ g ∈ groupsOf (k+1) ws, g ≠ [] ∧ g.length ≤ k+1 :=
    groupsOfF_mem ws.length k ws le_rfl
  have hsub : ∀ g ∈ groupsOf (k+1) ws, ∀ w ∈ g, pyStrip w.word ≠ "" := by
    intro g hg w hwm
    exact hw w (by rw [← hB]; exact List.mem_flatten.mpr ⟨g, hg, hwm⟩)
  refine ⟨hA, hB, hC, ?_, ?_⟩
  · intro c hc
    rw [hA] at hc
    obtain ⟨g, hg, rfl⟩ := List.mem_map.mp hc
    exact (chunk_text_clean g (hC g hg).1 (hsub g hg)).2
  · rw [hA, List.map_map]
    have hmapeq : (groupsOf (k+1) ws).map (Chunk.text ∘ chunkOfGroup) =
        (groupsOf (k+1) ws).map (fun g => joinSp (g.map (fun w => pyStrip w.word))) := by
      apply List.map_congr_left
      intro g hg
      exact (chunk_text_clean g (hC g hg).1 (hsub g hg)).1
    rw [hmapeq, joinSp_map_flatten _ _ (fun g hg => (hC g hg).1), hB]
    cases hws : ws with
    | nil => rfl
    | cons w rest =>
      rw [← hws]
      have hmne : ws.map (fun w => pyStrip w.word) ≠ [] := by simp [hws]
      have hmap : ∀ s ∈ ws.map (fun w => pyStrip w.word), s ≠ "" ∧ noEdge s := by
        intro s hs
        obtain ⟨w', hwm, rfl⟩ := List.mem_map.mp hs
        exact ⟨hw w' hwm, pyStrip_noEdge _⟩
      obtain ⟨-, hcl⟩ := joinSp_props _ hmne hmap
      exact (noEdge_strip_id _ hcl).symm

/-- Witness for `c3_chunks`: four clean words, group size 3. -/
theorem c3_chunks_witness :
    (∀ w ∈ wsW, pyStrip w.word ≠ "") ∧
      joinSp ((words_to_chunks wsW 3).map Chunk.text) =
        pyStrip (joinSp (wsW.map (fun w => pyStrip w.word))) :=
  ⟨by decide, (c3_chunks 2 wsW (by decide)).2.2.2.2⟩

theorem data_mk (l : List Char) : (⟨l⟩ : String).data = l := rfl

theorem replaceChar_data (a : Char) (r : List Char) (s : String) :
    (replaceChar a r s).data = s.data.flatMap (fun x => if x = a then r else [x]) := rfl

theorem replaceChar_append (a : Char) (r : List Char) (s t : String) :
    replaceChar a r (s ++ t) = replaceChar a r s ++ replaceChar a r t :=
  strExt (by simp [replaceChar_data, data_append])

theorem escapeDrawtext_append (s t : String) :
    escapeDrawtext (s ++ t) = escapeDrawtext s ++ escapeDrawtext t := by
  unfold escapeDrawtext
  rw [replaceChar_append, replaceChar_append, replaceChar_append]

theorem escapeDrawtext_char (c : Char) (hc : c ≠ '\\') :
    (escapeDrawtext ⟨[c]⟩).data = escStep c := by
  by_cases h1 : c = ':'
  · subst h1; decide
  · by_cases h2 : c = sqChar
    · subst h2; decide
    · by_cases h3 : c = dqChar
      · subst h3; decide
      · have hstep : escStep c = [c] := by
          unfold escStep specialChar
          simp [h1, h2, h3]
        rw [hstep]
        unfold escapeDrawtext
        simp only [replaceChar_data, data_mk, List.flatMap_cons, List.flatMap_nil]
        simp [h1, h2, h3]

theorem escapeDrawtext_data (l : List Char) (h : ('\\' : Char) ∉ l) :
    (escapeDrawtext ⟨l⟩).data = l.flatMap escStep := by
  induction l with
  | nil => rfl
  | cons c rest ih =>
    have hsplit : (⟨c :: rest⟩ : String) = (⟨[c]⟩ : String) ++ ⟨rest⟩ := rfl
    rw [hsplit, escapeDrawtext_append, data_append]
    rw [escapeDrawtext_char c (fun hc => h (hc ▸ List.mem_cons_self c rest)),
      ih (fun hm => h (List.mem_cons_of_mem c hm))]
    rw [List.flatMap_cons]

theorem parseFilterText_flatMap (l : List Char) (h : ('\\' : Char) ∉ l) :
    parseFilterText (l.flatMap escStep) = some l := by
  induction l with
  | nil => rfl
  | cons c rest ih =>
    rw [List.flatMap_cons]
    have hrest := ih (fun hm => h (List.mem_cons_of_mem c hm))
    have hcb : c ≠ '\\' := fun hc => h (hc ▸ List.mem_cons_self c rest)
    by_cases hs : specialChar c = true
    · have hstep : escStep c = ['\\', c] := by unfold escStep; rw [if_pos hs]
      rw [hstep]
      calc parseFilterText ('\\' :: c :: rest.flatMap escStep)
          = Option.map (fun x => c :: x) (parseFilterText (rest.flatMap escStep)) := rfl
        _ = some (c :: rest) := by rw [hrest]; rfl
    · have hstep : escStep c = [c] := by unfold escStep; rw [if_neg hs]
      rw [hstep]
      show parseFilterText (c :: rest.flatMap escStep) = some (c :: rest)
      unfold parseFilterText
      rw [if_neg hcb, if_neg hs]
      rw [hrest]
      rfl

/-- Claim C5: the composed `safe_title` escaping backslash-escapes all
three special characters (colon, single quote, double quote), so for any
hook text without a backslash of its own the escaped literal is accepted
by the (spec-modelled) filter-text parser and renders exactly the
original characters; and the overlay built by `drawOf` is enabled
exactly on the window from `hook_start` to `hook_start + hook_duration`. -/
theorem c5_escape_roundtrip (s : String) (h : ('\\' : Char) ∉ s.data) :
    parseFilterText (escapeDrawtext s).data = some s.data ∧
      ∀ (t : String) (hs hd : ℚ), (drawOf t hs hd).text = escapeDrawtext t ∧
        (drawOf t hs hd).enableStart = hs ∧ (drawOf t hs hd).enableEnd = hs + hd := by
  constructor
  · have hs : s = ⟨s.data⟩ := rfl
    rw [hs, escapeDrawtext_data s.data h]
    exact parseFilterText_flatMap s.data h
  · intro t hs hd
    exact ⟨rfl, rfl, rfl⟩

/-- Witness for `c5_escape_roundtrip`: a hook containing all three
special characters round-trips through escaping and parsing. -/
theorem c5_escape_roundtrip_witness :
    ('\\' : Char) ∉ hookSample.data ∧ (':' : Char) ∈ hookSample.data ∧
      sqChar ∈ hookSample.data ∧ dqChar ∈ hookSample.data ∧
      parseFilterText (escapeDrawtext hookSample).data = some hookSample.data :=
  ⟨by decide, by decide, by decide, by decide,
    (c5_escape_roundtrip hookSample (by decide)).1⟩

/-- Claim C1 (code evaluation at a failing input): a request whose
settings ask for −16 LUFS and −2 dBTP parses to exactly those values, yet
the only loudness-normalization invocation in the trace uses the fixed
filter `loudnorm=I=-14:TP=-1.5:LRA=11`; the parsed `lufs`/`peak` values
(src/main.py lines 147-148) are never used, and even the parsed default
peak (−1) differs from the hard-coded TP of −1.5. -/
theorem c1_loudnorm_ignores_settings :
    parseSettings bodyT = some stT ∧ stT.lufs = -16 ∧ stT.peak = -2 ∧
      Event.normalize loudnormAf ∈ (process cfgT extOK reqT).2 ∧
      (∀ af, Event.normalize af ∈ (process cfgT extOK reqT).2 → af = loudnormAf) ∧
      loudnormAf = "loudnorm=I=-14:TP=-1.5:LRA=11" ∧
      ((-16 : ℚ) ≠ -14) ∧ ((-2 : ℚ) ≠ -3/2) ∧
      (∀ st, parseSettings [] = some st → st.peak = -1 ∧ st.peak ≠ -3/2) := by
  have htr : process cfgT extOK reqT =
      (.okTrue,
        [.mkWorkspace, .download (.str "http://example/raw.mp4"), .extractAudio,
         .transcribeCall, .tighten (pyTruncInt 350),
         .burn (vfOf none (drawOf "Watch this" (3/10) (5/2))),
         .normalize loudnormAf,
         .postReady "http://zap.example" (.str "vid-1") "Watch this",
         .rmWorkspace]) := rfl
  refine ⟨rfl, rfl, rfl, ?_, ?_, rfl, by norm_num, by norm_num, ?_⟩
  · rw [htr]
    simp
  · intro af haf
    rw [htr] at haf
    simp at haf
    exact haf
  · intro st hst
    have hstd : st = ⟨pyTruncInt 350, -14, -1, 3/10, 5/2⟩ := by
      have : some st = some (⟨pyTruncInt 350, -14, -1, 3/10, 5/2⟩ : Settings) := hst.symm.trans rfl
      exact (Option.some.injEq _ _ ▸ this)
    subst hstd
    exact ⟨rfl, by norm_num⟩

/-- Claim C4 (counterexample): a request whose body parses neither as
JSON nor as form data, but which supplies a mismatched bearer credential
in its `Authorization` header, is answered with the bad-payload response
— not an authentication failure — because body parsing precedes the
credential check.  (No workspace is created and no tool runs on this
path either.) -/
theorem c4_badpayload_counterexample :
    process cfgT extOK reqBadBody = (.badPayload, []) ∧
      bearerToken "Bearer nope" = some "nope" ∧
      ("nope" : String) ≠ cfgT.appAuth ∧
      Resp.badPayload ≠ Resp.unauthorized :=
  ⟨rfl, rfl, by decide, by decide⟩

/-- Claim C4 (amended): for every request whose body parses (as JSON or
form data) and whose supplied credential does not match the configured
secret, the handler answers with the authentication failure before any
field validation, with an empty effect trace: no workspace directory is
created and no external tool or webhook is invoked.  (A request whose
body fails to parse is instead rejected with the bad-payload response
before the credential is examined, likewise with no side effects.) -/
theorem c4_auth_rejected_first (cfg : Config) (ext : Externals) (req : Req)
    (body0 : Body) (hm : ¬ req.method = "OPTIONS")
    (hp : parseBody req = some body0)
    (ha : tokenMatches (authTokenOf body0 req.authHeader) cfg.appAuth = false) :
    process cfg ext req = (.unauthorized, []) := by
  unfold process
  rw [if_neg hm, hp]
  simp [ha]

/-- Witness for `c4_auth_rejected_first`: a parseable body with a wrong
credential is answered 401 with no side effects. -/
theorem c4_auth_rejected_first_witness :
    (¬ reqWrongAuth.method = "OPTIONS") ∧
      parseBody reqWrongAuth = some [("auth", JVal.str "wrong")] ∧
      tokenMatches (authTokenOf [("auth", JVal.str "wrong")] reqWrongAuth.authHeader)
        cfgT.appAuth = false ∧
      process cfgT extOK reqWrongAuth = (.unauthorized, []) :=
  ⟨by decide, rfl, rfl,
    c4_auth_rejected_first cfgT extOK reqWrongAuth [("auth", JVal.str "wrong")]
      (by decide) rfl rfl⟩

theorem pathsCreated_under (ev : Event) : ∀ p ∈ pathsCreated ev, underWork p = true := by
  intro p hp
  cases ev <;> simp [pathsCreated] at hp <;> subst hp <;> decide

theorem fsfold_under : ∀ (evs : List Event) (fs : List String),
    (∀ p ∈ fs, underWork p = true) →
    ∀ p ∈ List.foldl fsStep fs evs, underWork p = true := by
  intro evs
  induction evs with
  | nil => intro fs h p hp; exact h p hp
  | cons ev rest ih =>
    intro fs h p hp
    rw [List.foldl_cons] at hp
    refine ih (fsStep fs ev) ?_ p hp
    intro q hq
    cases ev with
    | rmWorkspace => exact h q (List.mem_of_mem_filter hq)
    | mkWorkspace =>
      rcases List.mem_append.mp hq with hq1 | hq2
      · exact pathsCreated_under _ q hq1
      · exact h q hq2
    | download u =>
      rcases List.mem_append.mp hq with hq1 | hq2
      · exact pathsCreated_under _ q hq1
      · exact h q hq2
    | extractAudio =>
      rcases List.mem_append.mp hq with hq1 | hq2
      · exact pathsCreated_under _ q hq1
      · exact h q hq2
    | transcribeCall =>
      rcases List.mem_append.mp hq with hq1 | hq2
      · exact pathsCreated_under _ q hq1
      · exact h q hq2
    | tighten ms =>
      rcases List.mem_append.mp hq with hq1 | hq2
      · exact pathsCreated_under _ q hq1
      · exact h q hq2
    | writeAss ch =>
      rcases List.mem_append.mp hq with hq1 | hq2
      · exact pathsCreated_under _ q hq1
      · exact h q hq2
    | burn vf =>
      rcases List.mem_append.mp hq with hq1 | hq2
      · exact pathsCreated_under _ q hq1
      · exact h q hq2
    | normalize af =>
      rcases List.mem_append.mp hq with hq1 | hq2
      · exact pathsCreated_under _ q hq1
      · exact h q hq2
    | postReady u v t =>
      rcases List.mem_append.mp hq with hq1 | hq2
      · exact pathsCreated_under _ q hq1
      · exact h q hq2
    | postFailedJson u v m =>
      rcases List.mem_append.mp hq with hq1 | hq2
      · exact pathsCreated_under _ q hq1
      · exact h q hq2

theorem fsAfter_clean (l : List Event) :
    fsAfter ((Event.mkWorkspace :: l) ++ [Event.rmWorkspace]) = [] := by
  unfold fsAfter
  rw [List.foldl_append]
  have h0 : List.foldl fsStep [] (Event.mkWorkspace :: l) = List.foldl fsStep [] l := rfl
  rw [h0]
  have h1 : List.foldl fsStep (List.foldl fsStep [] l) [Event.rmWorkspace] =
      (List.foldl fsStep [] l).filter (fun p => !underWork p) := rfl
  rw [h1, List.filter_eq_nil_iff]
  intro p hp
  have := fsfold_under l [] (by intro q hq; simp at hq) p hp
  simp [this]

theorem pipeline_ok_of_stagesOk (cfg : Config) (ext : Externals)
    (videoId rawUrl : JVal) (hc : Bool) (st : Settings) (h : stagesOk ext) :
    (pipeline cfg ext videoId rawUrl hc st).1 = .ok () := by
  obtain ⟨h1, h2, ⟨tr, h3⟩, h4, h5, h6⟩ := h
  unfold pipeline
  rw [h1, h2, h3, h4, h5, h6]

/-- Claim C8: for every request that reaches the pipeline (parsed body,
matching credential, required fields and valid settings), the effect
trace starts with the creation of the job's scratch directory, ends — on
every exit path, success or failure of any stage — with its best-effort
removal, and the modelled filesystem is empty afterwards: no files remain
under the scratch path. -/
theorem c8_workspace_cleanup (cfg : Config) (ext : Externals) (req : Req)
    (body0 : Body) (videoId rawUrl : JVal) (st : Settings)
    (hm : ¬ req.method = "OPTIONS") (hp : parseBody req = some body0)
    (ha : tokenMatches (authTokenOf body0 req.authHeader) cfg.appAuth = true)
    (hv : jlookup (normalizeVideoUrl body0) "video_id" = some videoId)
    (hr : jlookup (normalizeVideoUrl body0) "raw_url" = some rawUrl)
    (hs : parseSettings (normalizeVideoUrl body0) = some st) :
    (process cfg ext req).2.head? = some Event.mkWorkspace ∧
      (process cfg ext req).2.getLast? = some Event.rmWorkspace ∧
      fsAfter (process cfg ext req).2 = [] := by
  have hshape : ∃ mid, (process cfg ext req).2 =
      (Event.mkWorkspace :: mid) ++ [Event.rmWorkspace] := by
    unfold process
    rw [if_neg hm, hp]
    simp only [ha, if_true]
    rcases hpr : (pipeline cfg ext videoId rawUrl
        (hasCaptionsOf (normalizeVideoUrl body0)) st).1 with e | u
    · exact ⟨(pipeline cfg ext videoId rawUrl
        (hasCaptionsOf (normalizeVideoUrl body0)) st).2 ++ failNotify cfg videoId e,
        by simp [hv, hr, hs, hpr]⟩
    · exact ⟨(pipeline cfg ext videoId rawUrl
        (hasCaptionsOf (normalizeVideoUrl body0)) st).2,
        by simp [hv, hr, hs, hpr]⟩
  obtain ⟨mid, hmid⟩ := hshape
  rw [hmid]
  exact ⟨rfl, List.getLast?_concat _, fsAfter_clean mid⟩

/-- Witness for `c8_workspace_cleanup`: a concrete successful job ends
with the scratch-directory removal and leaves no files behind. -/
theorem c8_workspace_cleanup_witness :
    parseBody reqT = some bodyT ∧
      (process cfgT extOK reqT).2.getLast? = some Event.rmWorkspace ∧
      fsAfter (process cfgT extOK reqT).2 = [] := by
  have H := c8_workspace_cleanup cfgT extOK reqT bodyT (.str "vid-1")
    (.str "http://example/raw.mp4") stT (by decide) rfl rfl rfl rfl rfl
  exact ⟨rfl, H.2.1, H.2.2⟩

/-- Claim C7: webhook delivery never changes the job's own outcome.  When
every stage succeeds the handler answers `{ok: true}` — the
success-webhook and failure-webhook outcomes are fields of the oracle
that the model (like the handler, which swallows their exceptions) never
consults — and when any stage fails with message `e` the handler posts a
metadata-only FAILED record whose `error_msg` is `e` truncated to at most
800 characters (to the configured endpoint) and answers 500 carrying the
untruncated detail `e`. -/
theorem c7_delivery_contract (cfg : Config) (ext : Externals) (req : Req)
    (body0 : Body) (videoId rawUrl : JVal) (st : Settings)
    (hm : ¬ req.method = "OPTIONS") (hp : parseBody req = some body0)
    (ha : tokenMatches (authTokenOf body0 req.authHeader) cfg.appAuth = true)
    (hv : jlookup (normalizeVideoUrl body0) "video_id" = some videoId)
    (hr : jlookup (normalizeVideoUrl body0) "raw_url" = some rawUrl)
    (hs : parseSettings (normalizeVideoUrl body0) = some st) :
    (stagesOk ext → (process cfg ext req).1 = Resp.okTrue) ∧
      (∀ e, (pipeline cfg ext videoId rawUrl
          (hasCaptionsOf (normalizeVideoUrl body0)) st).1 = .error e →
        (process cfg ext req).1 = Resp.httpError 500 e ∧
          (pyTake 800 e).length ≤ 800 ∧
          (¬ cfg.zapierUrl = "" →
            Event.postFailedJson cfg.zapierUrl videoId (pyTake 800 e) ∈
              (process cfg ext req).2)) := by
  constructor
  · intro hso
    have hpok := pipeline_ok_of_stagesOk cfg ext videoId rawUrl
      (hasCaptionsOf (normalizeVideoUrl body0)) st hso
    unfold process
    rw [if_neg hm, hp]
    simp [ha, hv, hr, hs, hpok]
  · intro e hpe
    refine ⟨?_, ?_, ?_⟩
    · unfold process
      rw [if_neg hm, hp]
      simp [ha, hv, hr, hs, hpe]
    · have hlen : (pyTake 800 e).length = (e.data.take 800).length := rfl
      rw [hlen, List.length_take]
      exact min_le_left _ _
    · intro hz
      have htrace : (process cfg ext req).2 =
          Event.mkWorkspace ::
            (((pipeline cfg ext videoId rawUrl
                (hasCaptionsOf (normalizeVideoUrl body0)) st).2 ++
              failNotify cfg videoId e) ++ [Event.rmWorkspace]) := by
        unfold process
        rw [if_neg hm, hp]
        simp [ha, hv, hr, hs, hpe]
      rw [htrace]
      have hmem : Event.postFailedJson cfg.zapierUrl videoId (pyTake 800 e) ∈
          failNotify cfg videoId e := by
        unfold failNotify
        rw [if_neg hz]
        simp
      exact List.mem_cons_of_mem _
        (List.mem_append_left _ (List.mem_append_right _ hmem))

/-- Witness for `c7_delivery_contract`: a failing download with a
900-character message yields a 500 with the full message and a FAILED
post truncated to 800 characters. -/
theorem c7_delivery_contract_witness :
    (pipeline cfgT extFail (.str "vid-1") (.str "http://example/raw.mp4")
        (hasCaptionsOf (normalizeVideoUrl bodyT)) stT).1 = .error longMsg ∧
      (process cfgT extFail reqT).1 = Resp.httpError 500 longMsg ∧
      (pyTake 800 longMsg).length ≤ 800 ∧
      Event.postFailedJson cfgT.zapierUrl (.str "vid-1") (pyTake 800 longMsg) ∈
        (process cfgT extFail reqT).2 := by
  have H := c7_delivery_contract cfgT extFail reqT bodyT (.str "vid-1")
    (.str "http://example/raw.mp4") stT (by decide) rfl rfl rfl rfl rfl
  have H2 := H.2 longMsg rfl
  exact ⟨rfl, H2.1, H2.2.1, H2.2.2 (by decide)⟩

theorem pipeline_nocap_events (cfg : Config) (ext : Externals)
    (videoId rawUrl : JVal) (st : Settings) :
    (∀ ch, Event.writeAss ch ∉ (pipeline cfg ext videoId rawUrl false st).2) ∧
      (∀ vf, Event.burn vf ∈ (pipeline cfg ext videoId rawUrl false st).2 →
        ∃ t, vf = vfOf none (drawOf t st.hookStart st.hookDur)) := by
  unfold pipeline
  cases hdl : ext.download with
  | error e =>
    exact ⟨fun ch hch => by simp at hch, fun vf hvf => by simp at hvf⟩
  | ok u1 =>
  cases hea : ext.extractAudio with
  | error e =>
    exact ⟨fun ch hch => by simp at hch, fun vf hvf => by simp at hvf⟩
  | ok u2 =>
  cases htc : ext.transcribe with
  | error e =>
    exact ⟨fun ch hch => by simp at hch, fun vf hvf => by simp at hvf⟩
  | ok tr =>
  cases hti : ext.tighten with
  | error e =>
    exact ⟨fun ch hch => by simp at hch, fun vf hvf => by simp at hvf⟩
  | ok u4 =>
  cases hbu : ext.burn with
  | error e =>
    constructor
    · intro ch hch
      simp at hch
    · intro vf hvf
      simp at hvf
      exact ⟨pick_title_hook (pyStrip tr.text), hvf⟩
  | ok u5 =>
  cases hno : ext.normalize with
  | error e =>
    constructor
    · intro ch hch
      simp at hch
    · intro vf hvf
      simp at hvf
      exact ⟨pick_title_hook (pyStrip tr.text), hvf⟩
  | ok u6 =>
    constructor
    · intro ch hch
      by_cases hz : cfg.zapierUrl = "" <;> simp [hz] at hch
    · intro vf hvf
      by_cases hz : cfg.zapierUrl = "" <;> simp [hz] at hvf <;>
        exact ⟨pick_title_hook (pyStrip tr.text), hvf⟩

theorem failNotify_posts (cfg : Config) (videoId : JVal) (e : String) :
    ∀ ev ∈ failNotify cfg videoId e, ∃ u m, ev = Event.postFailedJson u videoId m := by
  intro ev hev
  unfold failNotify at hev
  by_cases hz : cfg.zapierUrl = ""
  · rw [if_pos hz] at hev
    by_cases hb : cfg.base44Url = ""
    · rw [if_pos hb] at hev
      simp at hev
    · rw [if_neg hb] at hev
      simp at hev
      exact ⟨cfg.base44Url, pyTake 800 e, hev⟩
  · rw [if_neg hz] at hev
    simp at hev
    exact ⟨cfg.zapierUrl, pyTake 800 e, hev⟩

/-- Claim C9: for every request that reaches the pipeline with
`has_captions` parsing to false, no subtitle document is ever written (no
`writeAss` event occurs on any path), every burn invocation's filter
graph is exactly scale, crop and the timed hook overlay — with no
subtitle-burn step — and, when all stages succeed, such a burn invocation
does occur. -/
theorem c9_captions_disabled (cfg : Config) (ext : Externals) (req : Req)
    (body0 : Body) (videoId rawUrl : JVal) (st : Settings)
    (hm : ¬ req.method = "OPTIONS") (hp : parseBody req = some body0)
    (ha : tokenMatches (authTokenOf body0 req.authHeader) cfg.appAuth = true)
    (hv : jlookup (normalizeVideoUrl body0) "video_id" = some videoId)
    (hr : jlookup (normalizeVideoUrl body0) "raw_url" = some rawUrl)
    (hs : parseSettings (normalizeVideoUrl body0) = some st)
    (hc : hasCaptionsOf (normalizeVideoUrl body0) = false) :
    (∀ ch, Event.writeAss ch ∉ (process cfg ext req).2) ∧
      (∀ vf, Event.burn vf ∈ (process cfg ext req).2 →
        ∃ t, vf = vfOf none (drawOf t st.hookStart st.hookDur)) ∧
      (stagesOk ext →
        ∃ t, Event.burn (vfOf none (drawOf t st.hookStart st.hookDur)) ∈
          (process cfg ext req).2) := by
  have hpl := pipeline_nocap_events cfg ext videoId rawUrl st
  rcases hpr : (pipeline cfg ext videoId rawUrl false st).1 with e | u
  · -- a stage failed: trace is mk :: (pipeline events ++ failure posts) ++ rm
    have htrace : (process cfg ext req).2 =
        Event.mkWorkspace ::
          (((pipeline cfg ext videoId rawUrl false st).2 ++
            failNotify cfg videoId e) ++ [Event.rmWorkspace]) := by
      unfold process
      rw [if_neg hm, hp]
      simp [ha, hv, hr, hs, hc, hpr]
    refine ⟨?_, ?_, ?_⟩
    · intro ch hch
      rw [htrace] at hch
      rcases List.mem_cons.mp hch with h1 | h1
      · exact Event.noConfusion h1
      rcases List.mem_append.mp h1 with h2 | h2
      · rcases List.mem_append.mp h2 with h3 | h3
        · exact hpl.1 ch h3
        · obtain ⟨u, m, hum⟩ := failNotify_posts cfg videoId e _ h3
          exact Event.noConfusion hum
      · simp at h2
    · intro vf hvf
      rw [htrace] at hvf
      rcases List.mem_cons.mp hvf with h1 | h1
      · exact absurd h1 (by simp)
      rcases List.mem_append.mp h1 with h2 | h2
      · rcases List.mem_append.mp h2 with h3 | h3
        · exact hpl.2 vf h3
        · obtain ⟨u, m, hum⟩ := failNotify_posts cfg videoId e _ h3
          exact absurd hum (by simp)
      · simp at h2
    · intro hso
      have := pipeline_ok_of_stagesOk cfg ext videoId rawUrl false st hso
      rw [hpr] at this
      exact absurd this (by simp)
  · -- all stages succeeded: trace is mk :: pipeline events ++ rm
    have htrace : (process cfg ext req).2 =
        Event.mkWorkspace ::
          ((pipeline cfg ext videoId rawUrl false st).2 ++ [Event.rmWorkspace]) := by
      unfold process
      rw [if_neg hm, hp]
      simp [ha, hv, hr, hs, hc, hpr]
    refine ⟨?_, ?_, ?_⟩
    · intro ch hch
      rw [htrace] at hch
      rcases List.mem_cons.mp hch with h1 | h1
      · exact Event.noConfusion h1
      rcases List.mem_append.mp h1 with h2 | h2
      · exact hpl.1 ch h2
      · simp at h2
    · intro vf hvf
      rw [htrace] at hvf
      rcases List.mem_cons.mp hvf with h1 | h1
      · exact absurd h1 (by simp)
      rcases List.mem_append.mp h1 with h2 | h2
      · exact hpl.2 vf h2
      · simp at h2
    · rintro ⟨h1, h2, ⟨tr, h3⟩, h4, h5, h6⟩
      refine ⟨pick_title_hook (pyStrip tr.text), ?_⟩
      rw [htrace]
      have hb : Event.burn (vfOf none
          (drawOf (pick_title_hook (pyStrip tr.text)) st.hookStart st.hookDur)) ∈
          (pipeline cfg ext videoId rawUrl false st).2 := by
        unfold pipeline
        rw [h1, h2, h3, h4, h5, h6]
        by_cases hz : cfg.zapierUrl = "" <;> simp [hz]
      exact List.mem_cons_of_mem _ (List.mem_append_left _ hb)

/-- Witness for `c9_captions_disabled`: a concrete request with
`has_captions = false` produces no subtitle document and burns with the
subtitle-free filter chain. -/
theorem c9_captions_disabled_witness :
    hasCaptionsOf (normalizeVideoUrl bodyNC) = false ∧
      (∀ ch, Event.writeAss ch ∉ (process cfgT extOK reqNC).2) ∧
      (∃ t, Event.burn (vfOf none (drawOf t stT.hookStart stT.hookDur)) ∈
        (process cfgT extOK reqNC).2) := by
  have H := c9_captions_disabled cfgT extOK reqNC bodyNC (.str "vid-1")
    (.str "http://example/raw.mp4") stT (by decide) rfl rfl rfl rfl rfl rfl
  exact ⟨rfl, H.1, H.2.2 ⟨rfl, rfl, ⟨trEmpty, rfl⟩, rfl, rfl, rfl⟩⟩
